import Mathlib

/-!
Verification of the expression-language pipeline in asociatividad.py:
a lexer, a recursive-descent parser encoding operator precedence and
associativity, and a tree-walking interpreter over a mutable variable
environment.  The Python source is embedded shallowly: the lexer and the
parser become fuel-indexed total functions over explicit token lists, the
interpreter becomes a state-passing function returning the result together
with the environment reached at the point of return (so that the
environment mutations performed before a failure stay observable, exactly
as the Python exceptions leave the dictionary behind).

Numeric model: Python numbers (int and float) are embedded as a tagged
value that is either an integer or an exact rational.  The spec (design
note 9) leaves the numeric model open; every claim checked here only
exercises integer arithmetic, where the embedding agrees with Python
exactly.  Real-valued or complex-valued powers (fractional exponents) fall
outside the exact model and are mapped to an unsupported-operation error;
no claim reaches them.
-/

namespace Asociatividad

/-- Token kinds, mirroring the TokenType enumeration of the source. -/
inductive TokenType
| NUMBER
| PLUS
| MINUS
| MULTIPLY
| DIVIDE
| POWER
| ASSIGN
| LPAREN
| RPAREN
| IDENTIFIER
| EOF
deriving DecidableEq, Repr

/-- Numeric values: Python int, or Python float embedded as an exact
rational (see the header note on the numeric model). -/
inductive Value
| int : Int → Value
| float : Rat → Value
deriving DecidableEq, Repr

/-- The payload of a token: the Python Token.value field holds a number
for NUMBER tokens, the lexeme text for identifiers and operators, and
None for EOF. -/
inductive TokenValue
| num : Value → TokenValue
| str : String → TokenValue
| none : TokenValue
deriving DecidableEq, Repr

/-- A token, mirroring the Token dataclass.  The source never passes a
position when constructing tokens, so the position field always keeps its
default value 0 there. -/
structure Token where
  type : TokenType
  value : TokenValue
  position : Nat := 0
deriving DecidableEq, Repr

/-- The error taxonomy of the pipeline: the lexer raises on an invalid
character (carrying its position), float() raises ValueError on a literal
with several dots, the parser raises on an unexpected token, and the
interpreter raises on an unbound variable or a zero divisor.  outOfFuel is
the artificial exhaustion marker of the fuel-indexed embedding; with the
fuel bounds used below it is never reached on the inputs of the theorems.
unsupported marks operations that the closed embedding cannot represent
(see the comments at their use sites); none is reachable from the parser
output. -/
inductive Error
| lexError (pos : Nat)
| valueError (literal : String)
| parseError (token : Token)
| undefinedVariable (name : String)
| divisionByZero
| unsupported
| outOfFuel
deriving DecidableEq, Repr

/-- AST nodes.  As in the Python class hierarchy, the assignment node
stores an arbitrary node on the left: the annotation Var on Assign.left
is not enforced by the data type, only by the parser (claim C6). -/
inductive ASTNode
| binaryOp : ASTNode → Token → ASTNode → ASTNode
| unaryOp : Token → ASTNode → ASTNode
| num : Value → ASTNode
| var : String → ASTNode
| assign : ASTNode → ASTNode → ASTNode
deriving DecidableEq, Repr

/-! ## Lexer -/

/-- Characters that continue a number literal: digits and the dot. -/
def numChar (c : Char) : Bool := c.isDigit || c == '.'

/-- Characters that continue an identifier: alphanumerics and underscore. -/
def idContChar (c : Char) : Bool := c.isAlphanum || c == '_'

/-- skip_whitespace: advance past whitespace, tracking the position. -/
def skipWs : List Char → Nat → List Char × Nat
  | [], p => ([], p)
  | c :: cs, p => if c.isWhitespace then skipWs cs (p + 1) else (c :: cs, p)

/-- Digit run to a natural number (the characters are ASCII digits). -/
def digitsVal (ds : List Char) : Nat :=
  ds.foldl (fun a c => a * 10 + (c.toNat - 48)) 0

/-- Lexer.number plus the int()/float() conversion: no dot gives an
integer, one dot gives a float (embedded as the exact decimal rational),
and two or more dots make float() raise ValueError. -/
def numberValue (ds : List Char) : Except Error Value :=
  if ds.count '.' = 0 then .ok (.int (digitsVal ds))
  else if ds.count '.' = 1 then
    let ip := ds.takeWhile (fun c => c != '.')
    let fp := (ds.dropWhile (fun c => c != '.')).tail
    .ok (.float ((digitsVal ip : Rat) + (digitsVal fp : Rat) / ((10 : Rat) ^ fp.length)))
  else .error (.valueError (String.mk ds))

/-- Lexer.get_next_token: skip whitespace, then dispatch on the first
remaining character, with one character of lookahead after a star. -/
def getNextToken (cs0 : List Char) (p0 : Nat) : Except Error (Token × List Char × Nat) :=
  match skipWs cs0 p0 with
  | ([], p) => .ok (⟨.EOF, .none, 0⟩, [], p)
  | (c :: rest, p) =>
    if c.isDigit then
      let ds := (c :: rest).takeWhile numChar
      match numberValue ds with
      | .ok v => .ok (⟨.NUMBER, .num v, 0⟩, (c :: rest).dropWhile numChar, p + ds.length)
      | .error e => .error e
    else if c.isAlpha || c == '_' then
      let ids := (c :: rest).takeWhile idContChar
      .ok (⟨.IDENTIFIER, .str (String.mk ids), 0⟩, (c :: rest).dropWhile idContChar, p + ids.length)
    else if c == '+' then .ok (⟨.PLUS, .str "+", 0⟩, rest, p + 1)
    else if c == '-' then .ok (⟨.MINUS, .str "-", 0⟩, rest, p + 1)
    else if c == '*' then
      match rest with
      | '*' :: rest2 => .ok (⟨.POWER, .str "**", 0⟩, rest2, p + 2)
      | _ => .ok (⟨.MULTIPLY, .str "*", 0⟩, rest, p + 1)
    else if c == '/' then .ok (⟨.DIVIDE, .str "/", 0⟩, rest, p + 1)
    else if c == '=' then .ok (⟨.ASSIGN, .str "=", 0⟩, rest, p + 1)
    else if c == '(' then .ok (⟨.LPAREN, .str "(", 0⟩, rest, p + 1)
    else if c == ')' then .ok (⟨.RPAREN, .str ")", 0⟩, rest, p + 1)
    else .error (.lexError p)

/-- Pull tokens until EOF.  Every token other than EOF consumes at least
one character, so fuel equal to the input length plus one suffices. -/
def tokenizeLoop : Nat → List Char → Nat → Except Error (List Token)
  | 0, _, _ => .error .outOfFuel
  | f + 1, cs, p =>
    match getNextToken cs p with
    | .error e => .error e
    | .ok (tok, cs1, p1) =>
      if tok.type = .EOF then .ok [tok]
      else
        match tokenizeLoop f cs1 p1 with
        | .error e => .error e
        | .ok ts => .ok (tok :: ts)

/-- The full token sequence of an input text, ending in the EOF token.
The Python lexer hands tokens to the parser lazily; pre-lexing the whole
input is equivalent on every input whose consumed prefix is lexically
valid, which covers all inputs appearing in the claims. -/
def tokenize (text : String) : Except Error (List Token) :=
  tokenizeLoop (text.length + 1) text.data 0

/-! ## Parser -/

/-- The token the parser currently looks at; the stream always ends in
EOF, so an empty list also reads as EOF. -/
def currentTok : List Token → Token
  | [] => ⟨.EOF, .none, 0⟩
  | t :: _ => t

/-- Parser.eat: consume the current token if it has the expected type,
otherwise raise the unexpected-token error carrying that token. -/
def eatTok (tt : TokenType) (ts : List Token) : Except Error (List Token) :=
  if (currentTok ts).type = tt then .ok ts.tail
  else .error (.parseError (currentTok ts))

mutual

/-- Parser.factor: unary sign (recursing into factor itself), number,
identifier, or parenthesized expression; anything else is an
unexpected-token error. -/
def factorF : Nat → List Token → Except Error (ASTNode × List Token)
  | 0, _ => .error .outOfFuel
  | f + 1, ts =>
    let token := currentTok ts
    match token.type with
    | .PLUS =>
      match eatTok .PLUS ts with
      | .error e => .error e
      | .ok ts1 =>
        match factorF f ts1 with
        | .error e => .error e
        | .ok (n, ts2) => .ok (.unaryOp token n, ts2)
    | .MINUS =>
      match eatTok .MINUS ts with
      | .error e => .error e
      | .ok ts1 =>
        match factorF f ts1 with
        | .error e => .error e
        | .ok (n, ts2) => .ok (.unaryOp token n, ts2)
    | .NUMBER =>
      match eatTok .NUMBER ts with
      | .error e => .error e
      | .ok ts1 =>
        match token.value with
        | .num v => .ok (.num v, ts1)
        | _ => .error .unsupported
    | .IDENTIFIER =>
      match eatTok .IDENTIFIER ts with
      | .error e => .error e
      | .ok ts1 =>
        match token.value with
        | .str s => .ok (.var s, ts1)
        | _ => .error .unsupported
    | .LPAREN =>
      match eatTok .LPAREN ts with
      | .error e => .error e
      | .ok ts1 =>
        match exprF f ts1 with
        | .error e => .error e
        | .ok (n, ts2) =>
          match eatTok .RPAREN ts2 with
          | .error e => .error e
          | .ok ts3 => .ok (n, ts3)
    | _ => .error (.parseError token)

/-- Parser.power: one factor, then, if a power operator follows, a
recursive call to power itself for the right operand (right
associativity). -/
def powerF : Nat → List Token → Except Error (ASTNode × List Token)
  | 0, _ => .error .outOfFuel
  | f + 1, ts =>
    match factorF f ts with
    | .error e => .error e
    | .ok (node, ts1) =>
      let token := currentTok ts1
      if token.type = .POWER then
        match eatTok .POWER ts1 with
        | .error e => .error e
        | .ok ts2 =>
          match powerF f ts2 with
          | .error e => .error e
          | .ok (right, ts3) => .ok (.binaryOp node token right, ts3)
      else .ok (node, ts1)

/-- The while loop of Parser.term: fold further power operands onto the
accumulated node while the lookahead is a multiplication or division
operator (left associativity by iteration). -/
def termLoopF : Nat → ASTNode → List Token → Except Error (ASTNode × List Token)
  | 0, _, _ => .error .outOfFuel
  | f + 1, node, ts =>
    let token := currentTok ts
    match token.type with
    | .MULTIPLY =>
      match eatTok .MULTIPLY ts with
      | .error e => .error e
      | .ok ts1 =>
        match powerF f ts1 with
        | .error e => .error e
        | .ok (right, ts2) => termLoopF f (.binaryOp node token right) ts2
    | .DIVIDE =>
      match eatTok .DIVIDE ts with
      | .error e => .error e
      | .ok ts1 =>
        match powerF f ts1 with
        | .error e => .error e
        | .ok (right, ts2) => termLoopF f (.binaryOp node token right) ts2
    | _ => .ok (node, ts)

/-- Parser.term: one power, then the multiplication/division loop. -/
def termF : Nat → List Token → Except Error (ASTNode × List Token)
  | 0, _ => .error .outOfFuel
  | f + 1, ts =>
    match powerF f ts with
    | .error e => .error e
    | .ok (node, ts1) => termLoopF f node ts1

/-- The while loop of Parser.expr: fold further term operands onto the
accumulated node while the lookahead is plus or minus. -/
def exprLoopF : Nat → ASTNode → List Token → Except Error (ASTNode × List Token)
  | 0, _, _ => .error .outOfFuel
  | f + 1, node, ts =>
    let token := currentTok ts
    match token.type with
    | .PLUS =>
      match eatTok .PLUS ts with
      | .error e => .error e
      | .ok ts1 =>
        match termF f ts1 with
        | .error e => .error e
        | .ok (right, ts2) => exprLoopF f (.binaryOp node token right) ts2
    | .MINUS =>
      match eatTok .MINUS ts with
      | .error e => .error e
      | .ok ts1 =>
        match termF f ts1 with
        | .error e => .error e
        | .ok (right, ts2) => exprLoopF f (.binaryOp node token right) ts2
    | _ => .ok (node, ts)

/-- Parser.expr: one term, then the plus/minus loop. -/
def exprF : Nat → List Token → Except Error (ASTNode × List Token)
  | 0, _ => .error .outOfFuel
  | f + 1, ts =>
    match termF f ts with
    | .error e => .error e
    | .ok (node, ts1) => exprLoopF f node ts1

end

/-- Parser.assignment: parse one expr; when the parsed node is a bare
variable reference and the lookahead is the assignment operator, consume
it and recurse into assignment itself for the right-hand side (right
associativity, targets restricted to identifiers). -/
def assignmentF : Nat → List Token → Except Error (ASTNode × List Token)
  | 0, _ => .error .outOfFuel
  | f + 1, ts =>
    match exprF f ts with
    | .error e => .error e
    | .ok (node, ts1) =>
      match node, (currentTok ts1).type with
      | .var s, .ASSIGN =>
        match eatTok .ASSIGN ts1 with
        | .error e => .error e
        | .ok ts2 =>
          match assignmentF f ts2 with
          | .error e => .error e
          | .ok (right, ts3) => .ok (.assign (.var s) right, ts3)
      | _, _ => .ok (node, ts1)

/-- Fuel that dominates the recursion depth of the parser on a given
token list: between two consecutive token consumptions the parser
descends through at most the five rule layers plus a loop step. -/
def parserFuel (ts : List Token) : Nat := 8 * ts.length + 8

/-- Parser.parse: run the assignment entry rule and return its node.
As in the source, no end-of-input check follows: tokens the entry rule
leaves unconsumed are dropped. -/
def parseTokens (ts : List Token) : Except Error ASTNode :=
  match assignmentF (parserFuel ts) ts with
  | .ok (node, _) => .ok node
  | .error e => .error e

/-- The lexer-parser pipeline on raw text. -/
def parseText (text : String) : Except Error ASTNode :=
  match tokenize text with
  | .ok ts => parseTokens ts
  | .error e => .error e

/-! ## Interpreter -/

/-- The variable environment: name-to-value bindings, newest first.  An
insertion shadows every older binding of the same name, so lookup sees
exactly the overwrite semantics of the Python dictionary. -/
abbrev Env := List (String × Value)

/-- Dictionary lookup: the newest binding of the name, if any. -/
def lookupVar : Env → String → Option Value
  | [], _ => Option.none
  | (k, v) :: rest, name => if k = name then some v else lookupVar rest name

/-- Dictionary store: bind the name, shadowing older bindings. -/
def insertVar (env : Env) (name : String) (v : Value) : Env :=
  (name, v) :: env

/-- The rational magnitude of a value (Python numeric promotion reads
both operand kinds into a common numeric domain). -/
def ratOf : Value → Rat
  | .int n => (n : Rat)
  | .float q => q

/-- Addition with Python promotion: int plus int stays int, anything
involving a float is a float. -/
def addV (a b : Value) : Value :=
  match a, b with
  | .int m, .int n => .int (m + n)
  | _, _ => .float (ratOf a + ratOf b)

/-- Subtraction, promoted like addition. -/
def subV (a b : Value) : Value :=
  match a, b with
  | .int m, .int n => .int (m - n)
  | _, _ => .float (ratOf a - ratOf b)

/-- Multiplication, promoted like addition. -/
def mulV (a b : Value) : Value :=
  match a, b with
  | .int m, .int n => .int (m * n)
  | _, _ => .float (ratOf a * ratOf b)

/-- Python true division: always float, and a zero divisor (int or
float) raises ZeroDivisionError. -/
def divV (a b : Value) : Except Error Value :=
  if ratOf b = 0 then .error .divisionByZero
  else .ok (.float (ratOf a / ratOf b))

/-- Python exponentiation in the exact numeric model.  Int base with a
nonnegative int exponent stays int; a negative int exponent gives a float
(ZeroDivisionError on base zero).  Float operands with an integral
exponent give a float; a fractional exponent would give an irrational or
complex result, which the exact model cannot represent, hence the
unsupported marker (no claim reaches that branch). -/
def powV (a b : Value) : Except Error Value :=
  match a, b with
  | .int m, .int n =>
    if 0 ≤ n then .ok (.int (m ^ n.toNat))
    else if m = 0 then .error .divisionByZero
    else .ok (.float ((m : Rat) ^ n))
  | _, _ =>
    let q := ratOf a
    let r := ratOf b
    if r.den = 1 then
      if 0 ≤ r.num then .ok (.float (q ^ r.num.toNat))
      else if q = 0 then .error .divisionByZero
      else .ok (.float (q ^ r.num))
    else .error .unsupported

/-- Unary minus (int stays int, float stays float). -/
def negV : Value → Value
  | .int n => .int (-n)
  | .float q => .float (-q)

/-- The operator kinds Interpreter.visit_BinaryOp dispatches on; for any
other operator token the Python method falls through all branches without
visiting the children. -/
def isBinNumOp : TokenType → Bool
  | .PLUS => true
  | .MINUS => true
  | .MULTIPLY => true
  | .DIVIDE => true
  | .POWER => true
  | _ => false

/-- The arithmetic applied by visit_BinaryOp once both operands are
evaluated, keyed on the operator token type. -/
def applyBinOp (tt : TokenType) (a b : Value) : Except Error Value :=
  match tt with
  | .PLUS => .ok (addV a b)
  | .MINUS => .ok (subV a b)
  | .MULTIPLY => .ok (mulV a b)
  | .DIVIDE => divV a b
  | .POWER => powV a b
  | _ => .error .unsupported

/-- Interpreter.visit: structural dispatch over the node kinds.  The
environment is threaded explicitly; on an error the returned environment
is the dictionary state at the moment the Python exception is raised.
Branches the Python code leaves to fall through (an operator token of an
unexpected kind, or an assignment target that is not a variable node,
both unreachable from parser output) are mapped to errors. -/
def visit : ASTNode → Env → Except Error Value × Env
  | .num v, env => (.ok v, env)
  | .var name, env =>
    match lookupVar env name with
    | some v => (.ok v, env)
    | Option.none => (.error (.undefinedVariable name), env)
  | .unaryOp op e, env =>
    match op.type with
    | .PLUS => visit e env
    | .MINUS =>
      match visit e env with
      | (.ok v, env1) => (.ok (negV v), env1)
      | r => r
    | _ => (.error .unsupported, env)
  | .binaryOp l op r, env =>
    if isBinNumOp op.type then
      match visit l env with
      | (.error e, env1) => (.error e, env1)
      | (.ok v1, env1) =>
        match visit r env1 with
        | (.error e, env2) => (.error e, env2)
        | (.ok v2, env2) => (applyBinOp op.type v1 v2, env2)
    else (.error .unsupported, env)
  | .assign l r, env =>
    match l with
    | .var name =>
      match visit r env with
      | (.ok v, env1) => (.ok v, insertVar env1 name v)
      | (.error e, env1) => (.error e, env1)
    | _ => (.error .unsupported, env)

/-- The whole pipeline of the demonstration loop: lex, parse, interpret.
A lexer or parser failure leaves the environment untouched. -/
def runText (text : String) (env : Env) : Except Error Value × Env :=
  match parseText text with
  | .ok tree => visit tree env
  | .error e => (.error e, env)

/-! ## Observers used by the claims -/

/-- Every assignment node in the tree has a variable-reference node as
its left child (the invariant of claim C6). -/
def assignInvB : ASTNode → Bool
  | .num _ => true
  | .var _ => true
  | .unaryOp _ e => assignInvB e
  | .binaryOp l _ r => assignInvB l && assignInvB r
  | .assign l r =>
    (match l with
     | .var _ => true
     | _ => false) && assignInvB l && assignInvB r

/-- The tree contains no assignment node at all. -/
def noAssignB : ASTNode → Bool
  | .num _ => true
  | .var _ => true
  | .unaryOp _ e => noAssignB e
  | .binaryOp l _ r => noAssignB l && noAssignB r
  | .assign _ _ => false

/-- The chronological list of environment writes performed by the
assignment nodes whose evaluation fully completes during the walk of the
tree: a write is recorded exactly when the value subtree of the
assignment evaluated successfully, mirroring the control flow of visit. -/
def completedWrites : ASTNode → Env → List (String × Value)
  | .num _, _ => []
  | .var _, _ => []
  | .unaryOp op e, env =>
    match op.type with
    | .PLUS => completedWrites e env
    | .MINUS => completedWrites e env
    | _ => []
  | .binaryOp l op r, env =>
    if isBinNumOp op.type then
      match visit l env with
      | (.error _, _) => completedWrites l env
      | (.ok _, env1) => completedWrites l env ++ completedWrites r env1
    else []
  | .assign l r, env =>
    match l with
    | .var name =>
      match visit r env with
      | (.ok v, _) => completedWrites r env ++ [(name, v)]
      | (.error _, _) => completedWrites r env
    | _ => []

/-- Replay a chronological write list onto an environment. -/
def applyWrites (ws : List (String × Value)) (env : Env) : Env :=
  ws.foldl (fun e p => (p.1, p.2) :: e) env

/-- The EOF token exactly as the lexer constructs it. -/
def eofToken : Token := ⟨.EOF, .none, 0⟩

/-- A number token as the lexer constructs it for a literal. -/
def numTok (v : Value) : Token := ⟨.NUMBER, .num v, 0⟩

/-- The power-operator token as the lexer constructs it. -/
def powTok : Token := ⟨.POWER, .str "**", 0⟩

/-- The token sequence continuing a power chain: for each further
operand, the power operator followed by its number token, then EOF. -/
def powChainRest : List Value → List Token
  | [] => [eofToken]
  | v :: vs => powTok :: numTok v :: powChainRest vs

/-- The token sequence of a power chain a ** v1 ** v2 ** ... -/
def powChainToks (a : Value) (vs : List Value) : List Token :=
  numTok a :: powChainRest vs

/-- The right-folded power tree the spec prescribes for a power chain. -/
def powFold (a : Value) (vs : List Value) : ASTNode :=
  match vs with
  | [] => .num a
  | v :: rest => .binaryOp (.num a) powTok (powFold v rest)

/-- Left-to-right folding of one operator over a list of further
operands, stopping at the first error: the reference fold that evaluation
of a left-associative chain must match. -/
def foldLeftOps (tt : TokenType) (a : Value) : List Value → Except Error Value
  | [] => .ok a
  | b :: rest =>
    match applyBinOp tt a b with
    | .error e => .error e
    | .ok v => foldLeftOps tt v rest

deriving instance DecidableEq for Except

/-! ## Helper lemmas -/

/-- factor on a number token: consume it and build the literal node. -/
theorem factorF_num (f : Nat) (v : Value) (ts : List Token) :
    factorF (f + 1) (numTok v :: ts) = .ok (.num v, ts) := rfl

/-- One unfolding step of the power rule. -/
theorem powerF_succ (f : Nat) (ts : List Token) :
    powerF (f + 1) ts =
      match factorF f ts with
      | .error e => .error e
      | .ok (node, ts1) =>
        if (currentTok ts1).type = .POWER then
          match eatTok .POWER ts1 with
          | .error e => .error e
          | .ok ts2 =>
            match powerF f ts2 with
            | .error e => .error e
            | .ok (right, ts3) => .ok (.binaryOp node (currentTok ts1) right, ts3)
        else .ok (node, ts1) := rfl

/-- One unfolding step of the term rule. -/
theorem termF_succ (f : Nat) (ts : List Token) :
    termF (f + 1) ts =
      match powerF f ts with
      | .error e => .error e
      | .ok (node, ts1) => termLoopF f node ts1 := rfl

/-- One unfolding step of the expr rule. -/
theorem exprF_succ (f : Nat) (ts : List Token) :
    exprF (f + 1) ts =
      match termF f ts with
      | .error e => .error e
      | .ok (node, ts1) => exprLoopF f node ts1 := rfl

/-- One unfolding step of the assignment rule. -/
theorem assignmentF_succ (f : Nat) (ts : List Token) :
    assignmentF (f + 1) ts =
      match exprF f ts with
      | .error e => .error e
      | .ok (node, ts1) =>
        match node, (currentTok ts1).type with
        | .var s, .ASSIGN =>
          match eatTok .ASSIGN ts1 with
          | .error e => .error e
          | .ok ts2 =>
            match assignmentF f ts2 with
            | .error e => .error e
            | .ok (right, ts3) => .ok (.assign (.var s) right, ts3)
        | _, _ => .ok (node, ts1) := rfl

/-- The term loop stops when the lookahead is not a multiplicative
operator. -/
theorem termLoopF_exit (f : Nat) (node : ASTNode) (ts : List Token)
    (hf : 1 ≤ f)
    (h1 : (currentTok ts).type ≠ .MULTIPLY)
    (h2 : (currentTok ts).type ≠ .DIVIDE) :
    termLoopF f node ts = .ok (node, ts) := by
  obtain ⟨g, rfl⟩ : ∃ g, f = g + 1 := ⟨f - 1, by omega⟩
  simp only [termLoopF]

/-- The expr loop stops when the lookahead is not an additive
operator. -/
theorem exprLoopF_exit (f : Nat) (node : ASTNode) (ts : List Token)
    (hf : 1 ≤ f)
    (h1 : (currentTok ts).type ≠ .PLUS)
    (h2 : (currentTok ts).type ≠ .MINUS) :
    exprLoopF f node ts = .ok (node, ts) := by
  obtain ⟨g, rfl⟩ : ∃ g, f = g + 1 := ⟨f - 1, by omega⟩
  simp only [exprLoopF]

theorem powChainRest_length (vs : List Value) :
    (powChainRest vs).length = 2 * vs.length + 1 := by
  induction vs with
  | nil => simp [powChainRest, eofToken]
  | cons v rest ih => simp [powChainRest, ih]; omega

/-- The power rule right-folds an arbitrary power chain: the recursive
call for the right operand goes back into power itself. -/
theorem powerF_chain : ∀ (vs : List Value) (a : Value) (f : Nat),
    2 * vs.length + 2 ≤ f →
    powerF f (numTok a :: powChainRest vs) = .ok (powFold a vs, [eofToken]) := by
  intro vs
  induction vs with
  | nil =>
    intro a f hf
    obtain ⟨g, rfl⟩ : ∃ g, f = g + 1 + 1 := ⟨f - 2, by omega⟩
    simp only [powChainRest]
    rw [powerF_succ, factorF_num]
    simp [currentTok, eofToken, powFold]
  | cons v rest ih =>
    intro a f hf
    obtain ⟨g, rfl⟩ : ∃ g, f = g + 1 + 1 := ⟨f - 2, by omega⟩
    have hrec := ih v (g + 1) (by simp at hf; omega)
    simp only [powChainRest]
    rw [powerF_succ, factorF_num]
    simp [currentTok, eatTok, powTok, hrec, powFold]

/-- The whole parser right-folds a power chain of any length. -/
theorem parseTokens_powChain (a : Value) (vs : List Value) :
    parseTokens (powChainToks a vs) = .ok (powFold a vs) := by
  have hlen : (powChainToks a vs).length = 2 * vs.length + 2 := by
    simp [powChainToks, powChainRest_length]
  have hg : parserFuel (powChainToks a vs) = 16 * vs.length + 21 + 1 + 1 + 1 := by
    simp [parserFuel, hlen]; omega
  have hpow := powerF_chain vs a (16 * vs.length + 21) (by omega)
  have htl := termLoopF_exit (16 * vs.length + 21) (powFold a vs) [eofToken]
    (by omega) (by simp [currentTok, eofToken]) (by simp [currentTok, eofToken])
  have hel := exprLoopF_exit (16 * vs.length + 22) (powFold a vs) [eofToken]
    (by omega) (by simp [currentTok, eofToken]) (by simp [currentTok, eofToken])
  rw [parseTokens, hg, assignmentF_succ, exprF_succ, termF_succ]
  rw [show powChainToks a vs = numTok a :: powChainRest vs from rfl]
  rw [hpow]
  simp only [htl]
  simp only [hel]
  cases vs with
  | nil => simp [powFold, currentTok, eofToken]
  | cons v rest => simp [powFold, currentTok, eofToken]

theorem factorF_succ (f : Nat) (ts : List Token) :
    factorF (f + 1) ts =
      match (currentTok ts).type with
      | .PLUS =>
        match eatTok .PLUS ts with
        | .error e => .error e
        | .ok ts1 =>
          match factorF f ts1 with
          | .error e => .error e
          | .ok (n, ts2) => .ok (.unaryOp (currentTok ts) n, ts2)
      | .MINUS =>
        match eatTok .MINUS ts with
        | .error e => .error e
        | .ok ts1 =>
          match factorF f ts1 with
          | .error e => .error e
          | .ok (n, ts2) => .ok (.unaryOp (currentTok ts) n, ts2)
      | .NUMBER =>
        match eatTok .NUMBER ts with
        | .error e => .error e
        | .ok ts1 =>
          match (currentTok ts).value with
          | .num v => .ok (.num v, ts1)
          | _ => .error .unsupported
      | .IDENTIFIER =>
        match eatTok .IDENTIFIER ts with
        | .error e => .error e
        | .ok ts1 =>
          match (currentTok ts).value with
          | .str s => .ok (.var s, ts1)
          | _ => .error .unsupported
      | .LPAREN =>
        match eatTok .LPAREN ts with
        | .error e => .error e
        | .ok ts1 =>
          match exprF f ts1 with
          | .error e => .error e
          | .ok (n, ts2) =>
            match eatTok .RPAREN ts2 with
            | .error e => .error e
            | .ok ts3 => .ok (n, ts3)
      | _ => .error (.parseError (currentTok ts)) := rfl

theorem termLoopF_succ (f : Nat) (node : ASTNode) (ts : List Token) :
    termLoopF (f + 1) node ts =
      match (currentTok ts).type with
      | .MULTIPLY =>
        match eatTok .MULTIPLY ts with
        | .error e => .error e
        | .ok ts1 =>
          match powerF f ts1 with
          | .error e => .error e
          | .ok (right, ts2) => termLoopF f (.binaryOp node (currentTok ts) right) ts2
      | .DIVIDE =>
        match eatTok .DIVIDE ts with
        | .error e => .error e
        | .ok ts1 =>
          match powerF f ts1 with
          | .error e => .error e
          | .ok (right, ts2) => termLoopF f (.binaryOp node (currentTok ts) right) ts2
      | _ => .ok (node, ts) := rfl

theorem exprLoopF_succ (f : Nat) (node : ASTNode) (ts : List Token) :
    exprLoopF (f + 1) node ts =
      match (currentTok ts).type with
      | .PLUS =>
        match eatTok .PLUS ts with
        | .error e => .error e
        | .ok ts1 =>
          match termF f ts1 with
          | .error e => .error e
          | .ok (right, ts2) => exprLoopF f (.binaryOp node (currentTok ts) right) ts2
      | .MINUS =>
        match eatTok .MINUS ts with
        | .error e => .error e
        | .ok ts1 =>
          match termF f ts1 with
          | .error e => .error e
          | .ok (right, ts2) => exprLoopF f (.binaryOp node (currentTok ts) right) ts2
      | _ => .ok (node, ts) := rfl



/-- Invariant preserved by every parser rule: any node a rule returns
satisfies the assignment-target invariant. -/
theorem parserInv : ∀ f : Nat,
    (∀ ts r, factorF f ts = .ok r → assignInvB r.1 = true) ∧
    (∀ ts r, powerF f ts = .ok r → assignInvB r.1 = true) ∧
    (∀ node ts r, assignInvB node = true → termLoopF f node ts = .ok r → assignInvB r.1 = true) ∧
    (∀ ts r, termF f ts = .ok r → assignInvB r.1 = true) ∧
    (∀ node ts r, assignInvB node = true → exprLoopF f node ts = .ok r → assignInvB r.1 = true) ∧
    (∀ ts r, exprF f ts = .ok r → assignInvB r.1 = true) ∧
    (∀ ts r, assignmentF f ts = .ok r → assignInvB r.1 = true) := by
  intro f
  induction f with
  | zero =>
    refine ⟨?_, ?_, ?_, ?_, ?_, ?_, ?_⟩ <;> intros <;>
      simp [factorF, powerF, termLoopF, termF, exprLoopF, exprF, assignmentF] at *
  | succ f ih =>
    obtain ⟨ihF, ihP, ihTL, ihT, ihEL, ihE, ihA⟩ := ih
    refine ⟨?_, ?_, ?_, ?_, ?_, ?_, ?_⟩
    -- factorF
    · intro ts r h
      rw [factorF_succ] at h
      cases htt : (currentTok ts).type <;> simp only [htt] at h <;>
        try exact Except.noConfusion h
      case PLUS =>
        cases he : eatTok .PLUS ts with
        | error e => rw [he] at h; exact Except.noConfusion h
        | ok ts1 =>
          simp only [he] at h
          cases hf : factorF f ts1 with
          | error e => rw [hf] at h; exact Except.noConfusion h
          | ok p =>
            obtain ⟨n, ts2⟩ := p
            simp only [hf] at h
            obtain rfl := Except.ok.inj h
            simpa [assignInvB] using ihF ts1 (n, ts2) hf
      case MINUS =>
        cases he : eatTok .MINUS ts with
        | error e => rw [he] at h; exact Except.noConfusion h
        | ok ts1 =>
          simp only [he] at h
          cases hf : factorF f ts1 with
          | error e => rw [hf] at h; exact Except.noConfusion h
          | ok p =>
            obtain ⟨n, ts2⟩ := p
            simp only [hf] at h
            obtain rfl := Except.ok.inj h
            simpa [assignInvB] using ihF ts1 (n, ts2) hf
      case NUMBER =>
        cases he : eatTok .NUMBER ts with
        | error e => rw [he] at h; exact Except.noConfusion h
        | ok ts1 =>
          simp only [he] at h
          cases hv : (currentTok ts).value <;> simp only [hv] at h <;>
            try exact Except.noConfusion h
          obtain rfl := Except.ok.inj h
          simp [assignInvB]
      case IDENTIFIER =>
        cases he : eatTok .IDENTIFIER ts with
        | error e => rw [he] at h; exact Except.noConfusion h
        | ok ts1 =>
          simp only [he] at h
          cases hv : (currentTok ts).value <;> simp only [hv] at h <;>
            try exact Except.noConfusion h
          obtain rfl := Except.ok.inj h
          simp [assignInvB]
      case LPAREN =>
        cases he : eatTok .LPAREN ts with
        | error e => rw [he] at h; exact Except.noConfusion h
        | ok ts1 =>
          simp only [he] at h
          cases hx : exprF f ts1 with
          | error e => rw [hx] at h; exact Except.noConfusion h
          | ok p =>
            obtain ⟨n, ts2⟩ := p
            simp only [hx] at h
            cases he2 : eatTok .RPAREN ts2 with
            | error e => rw [he2] at h; exact Except.noConfusion h
            | ok ts3 =>
              simp only [he2] at h
              obtain rfl := Except.ok.inj h
              simpa using ihE ts1 (n, ts2) hx
    -- powerF
    · intro ts r h
      rw [powerF_succ] at h
      cases hf : factorF f ts with
      | error e => rw [hf] at h; exact Except.noConfusion h
      | ok p =>
        obtain ⟨node, ts1⟩ := p
        simp only [hf] at h
        by_cases hpw : (currentTok ts1).type = .POWER
        · simp only [hpw, if_true] at h
          cases he : eatTok .POWER ts1 with
          | error e => rw [he] at h; exact Except.noConfusion h
          | ok ts2 =>
            simp only [he] at h
            cases hp : powerF f ts2 with
            | error e => rw [hp] at h; exact Except.noConfusion h
            | ok q =>
              obtain ⟨right, ts3⟩ := q
              simp only [hp] at h
              obtain rfl := Except.ok.inj h
              have h1 := ihF ts (node, ts1) hf
              have h2 := ihP ts2 (right, ts3) hp
              simp at h1 h2
              simp [assignInvB, h1, h2]
        · simp only [hpw, if_false] at h
          obtain rfl := Except.ok.inj h
          simpa using ihF ts (node, ts1) hf
    -- termLoopF
    · intro node ts r hin h
      rw [termLoopF_succ] at h
      cases htt : (currentTok ts).type <;> simp only [htt] at h <;>
        try (obtain rfl := Except.ok.inj h; exact hin)
      case MULTIPLY =>
        cases he : eatTok .MULTIPLY ts with
        | error e => rw [he] at h; exact Except.noConfusion h
        | ok ts1 =>
          simp only [he] at h
          cases hp : powerF f ts1 with
          | error e => rw [hp] at h; exact Except.noConfusion h
          | ok q =>
            obtain ⟨right, ts2⟩ := q
            simp only [hp] at h
            refine ihTL _ _ _ ?_ h
            have h2 := ihP ts1 (right, ts2) hp
            simp at h2
            simp [assignInvB, hin, h2]
      case DIVIDE =>
        cases he : eatTok .DIVIDE ts with
        | error e => rw [he] at h; exact Except.noConfusion h
        | ok ts1 =>
          simp only [he] at h
          cases hp : powerF f ts1 with
          | error e => rw [hp] at h; exact Except.noConfusion h
          | ok q =>
            obtain ⟨right, ts2⟩ := q
            simp only [hp] at h
            refine ihTL _ _ _ ?_ h
            have h2 := ihP ts1 (right, ts2) hp
            simp at h2
            simp [assignInvB, hin, h2]
    -- termF
    · intro ts r h
      rw [termF_succ] at h
      cases hp : powerF f ts with
      | error e => rw [hp] at h; exact Except.noConfusion h
      | ok p =>
        obtain ⟨node, ts1⟩ := p
        simp only [hp] at h
        have h1 := ihP ts (node, ts1) hp
        simp at h1
        exact ihTL node ts1 r h1 h
    -- exprLoopF
    · intro node ts r hin h
      rw [exprLoopF_succ] at h
      cases htt : (currentTok ts).type <;> simp only [htt] at h <;>
        try (obtain rfl := Except.ok.inj h; exact hin)
      case PLUS =>
        cases he : eatTok .PLUS ts with
        | error e => rw [he] at h; exact Except.noConfusion h
        | ok ts1 =>
          simp only [he] at h
          cases hp : termF f ts1 with
          | error e => rw [hp] at h; exact Except.noConfusion h
          | ok q =>
            obtain ⟨right, ts2⟩ := q
            simp only [hp] at h
            refine ihEL _ _ _ ?_ h
            have h2 := ihT ts1 (right, ts2) hp
            simp at h2
            simp [assignInvB, hin, h2]
      case MINUS =>
        cases he : eatTok .MINUS ts with
        | error e => rw [he] at h; exact Except.noConfusion h
        | ok ts1 =>
          simp only [he] at h
          cases hp : termF f ts1 with
          | error e => rw [hp] at h; exact Except.noConfusion h
          | ok q =>
            obtain ⟨right, ts2⟩ := q
            simp only [hp] at h
            refine ihEL _ _ _ ?_ h
            have h2 := ihT ts1 (right, ts2) hp
            simp at h2
            simp [assignInvB, hin, h2]
    -- exprF
    · intro ts r h
      rw [exprF_succ] at h
      cases hp : termF f ts with
      | error e => rw [hp] at h; exact Except.noConfusion h
      | ok p =>
        obtain ⟨node, ts1⟩ := p
        simp only [hp] at h
        have h1 := ihT ts (node, ts1) hp
        simp at h1
        exact ihEL node ts1 r h1 h
    -- assignmentF
    · intro ts r h
      rw [assignmentF_succ] at h
      cases hx : exprF f ts with
      | error e => rw [hx] at h; exact Except.noConfusion h
      | ok p =>
        obtain ⟨node, ts1⟩ := p
        simp only [hx] at h
        have h1 := ihE ts (node, ts1) hx
        simp at h1
        cases node <;> cases htt : (currentTok ts1).type <;> simp only [htt] at h <;>
          try (obtain rfl := Except.ok.inj h; exact h1)
        case var.ASSIGN s =>
          cases he : eatTok .ASSIGN ts1 with
          | error e => rw [he] at h; exact Except.noConfusion h
          | ok ts2 =>
            simp only [he] at h
            cases ha : assignmentF f ts2 with
            | error e => rw [ha] at h; exact Except.noConfusion h
            | ok q =>
              obtain ⟨right, ts3⟩ := q
              simp only [ha] at h
              obtain rfl := Except.ok.inj h
              have h2 := ihA ts2 (right, ts3) ha
              simp at h2
              simp [assignInvB, h2]


theorem applyWrites_nil (env : Env) : applyWrites [] env = env := rfl

theorem applyWrites_append (xs ys : List (String × Value)) (env : Env) :
    applyWrites (xs ++ ys) env = applyWrites ys (applyWrites xs env) := by
  simp [applyWrites, List.foldl_append]

theorem applyWrites_single (p : String × Value) (env : Env) :
    applyWrites [p] env = (p.1, p.2) :: env := rfl

/-- Skipping whitespace consumes the whole input when every character is
whitespace. -/
theorem skipWs_of_all_ws : ∀ (l : List Char) (p : Nat),
    (∀ c ∈ l, c.isWhitespace = true) → skipWs l p = ([], p + l.length) := by
  intro l
  induction l with
  | nil => intro p _; simp [skipWs]
  | cons c cs ih =>
    intro p h
    have hc : c.isWhitespace = true := h c (List.mem_cons_self c cs)
    have ih2 := ih (p + 1) (fun d hd => h d (List.mem_cons_of_mem c hd))
    simp [skipWs, hc, ih2]
    omega

/-- Evaluation of an assignment-free tree leaves the environment exactly
as it was. -/
theorem visit_noAssign_env : ∀ (t : ASTNode) (env : Env),
    noAssignB t = true → (visit t env).2 = env := by
  intro t
  induction t with
  | num v => intro env _; simp [visit]
  | var name =>
    intro env _
    cases h : lookupVar env name <;> simp [visit, h]
  | unaryOp op e ih =>
    intro env hna
    simp only [noAssignB] at hna
    cases htt : op.type <;> simp only [visit, htt] <;> try simp
    · exact ih env hna
    · have h2 := ih env hna
      cases hv : visit e env with
      | mk res env1 =>
        rw [hv] at h2
        simp at h2
        cases res <;> simp [hv, h2]
  | binaryOp l op r ihl ihr =>
    intro env hna
    simp only [noAssignB, Bool.and_eq_true] at hna
    cases hbo : isBinNumOp op.type <;> simp only [visit, hbo] <;> try simp
    cases hl : visit l env with
    | mk res1 env1 =>
      have h1 := ihl env hna.1
      rw [hl] at h1
      simp at h1
      subst h1
      cases res1 with
      | error e => simp [hl]
      | ok v1 =>
        cases hr : visit r env1 with
        | mk res2 env2 =>
          have h2 := ihr env1 hna.2
          rw [hr] at h2
          simp at h2
          cases res2 <;> simp [hl, hr, h2]
  | assign l r ihl ihr =>
    intro env hna
    simp [noAssignB] at hna

/-- Evaluating the left-folded three-operand tree of one arithmetic
operator equals folding that operator left-to-right over the operands. -/
theorem visit_left_chain (op : Token) (hop : isBinNumOp op.type = true)
    (a b c : Value) (env : Env) :
    visit (.binaryOp (.binaryOp (.num a) op (.num b)) op (.num c)) env =
      (foldLeftOps op.type a [b, c], env) := by
  cases h1 : applyBinOp op.type a b with
  | error e => simp [visit, hop, foldLeftOps, h1]
  | ok v1 =>
    cases h2 : applyBinOp op.type v1 c <;> simp [visit, hop, foldLeftOps, h1, h2]



/-! ## Claims -/

/-- C1, counterexample: the claim states that on an input whose tokens
are not fully consumed by one assignment-rule parse, such as
"1 + 2 = 3", the parse entry point fails with a ParseError reporting the
leftover token.  This is false: Parser.parse performs no end-of-input
check, so "1 + 2 = 3" parses successfully and returns the tree of 1 + 2
alone, the assignment operator and everything after it silently
ignored. -/
theorem c1_counterexample_parse_succeeds_on_leftover :
    parseText "1 + 2 = 3" =
      .ok (.binaryOp (.num (.int 1)) ⟨.PLUS, .str "+", 0⟩ (.num (.int 2))) := by
  decide

/-- C1, amended: the parse entry point runs the assignment rule once and
returns its node without checking that the whole input was consumed, so
leftover tokens are silently dropped rather than reported; on
"1 + 2 = 3" the assignment rule stops in front of the assignment
operator (because the parsed left operand is not a bare identifier) and
parse succeeds with the tree of 1 + 2, leaving the tokens from the
assignment operator onward unconsumed. -/
theorem c1_amended_parse_ignores_leftover :
    tokenize "1 + 2 = 3" =
      .ok [numTok (.int 1), ⟨.PLUS, .str "+", 0⟩, numTok (.int 2),
        ⟨.ASSIGN, .str "=", 0⟩, numTok (.int 3), eofToken] ∧
    assignmentF
        (parserFuel [numTok (.int 1), ⟨.PLUS, .str "+", 0⟩, numTok (.int 2),
          ⟨.ASSIGN, .str "=", 0⟩, numTok (.int 3), eofToken])
        [numTok (.int 1), ⟨.PLUS, .str "+", 0⟩, numTok (.int 2),
          ⟨.ASSIGN, .str "=", 0⟩, numTok (.int 3), eofToken] =
      .ok (.binaryOp (.num (.int 1)) ⟨.PLUS, .str "+", 0⟩ (.num (.int 2)),
        [⟨.ASSIGN, .str "=", 0⟩, numTok (.int 3), eofToken]) ∧
    parseText "1 + 2 = 3" =
      .ok (.binaryOp (.num (.int 1)) ⟨.PLUS, .str "+", 0⟩ (.num (.int 2))) := by
  refine ⟨by decide, by decide, by decide⟩

/-- C2: every power chain parses right-folded (the power rule recurses
into itself for the right operand), and in particular "2 ** 3 ** 2"
parses as 2 ** (3 ** 2) and evaluates to 512. -/
theorem c2_power_chains_right_folded :
    (∀ (a : Value) (vs : List Value),
      parseTokens (powChainToks a vs) = .ok (powFold a vs)) ∧
    parseText "2 ** 3 ** 2" =
      .ok (.binaryOp (.num (.int 2)) powTok
        (.binaryOp (.num (.int 3)) powTok (.num (.int 2)))) ∧
    runText "2 ** 3 ** 2" [] = (.ok (.int 512), []) := by
  refine ⟨parseTokens_powChain, by decide, by decide⟩

/-- C3: a three-operand chain of one operator among plus, minus,
multiply, divide parses left-folded, and evaluating the left-folded tree
equals folding the operation left-to-right over the operands; in
particular "5 - 3 - 2" parses as (5 - 3) - 2 and evaluates to 0. -/
theorem c3_left_assoc_chains :
    (∀ (a b c : Value) (op : Token),
      op.type = .PLUS ∨ op.type = .MINUS ∨ op.type = .MULTIPLY ∨ op.type = .DIVIDE →
      parseTokens [numTok a, op, numTok b, op, numTok c, eofToken] =
        .ok (.binaryOp (.binaryOp (.num a) op (.num b)) op (.num c)) ∧
      ∀ env : Env,
        visit (.binaryOp (.binaryOp (.num a) op (.num b)) op (.num c)) env =
          (foldLeftOps op.type a [b, c], env)) ∧
    parseText "5 - 3 - 2" =
      .ok (.binaryOp (.binaryOp (.num (.int 5)) ⟨.MINUS, .str "-", 0⟩ (.num (.int 3)))
        ⟨.MINUS, .str "-", 0⟩ (.num (.int 2))) ∧
    runText "5 - 3 - 2" [] = (.ok (.int 0), []) := by
  refine ⟨?_, by decide, by decide⟩
  intro a b c op hop
  obtain ⟨tt, tv, tp⟩ := op
  constructor
  · rcases hop with h | h | h | h <;> simp only [Token.type] at h <;> subst h <;>
      simp [parseTokens, parserFuel, assignmentF, exprF, exprLoopF, termF, termLoopF,
        powerF, factorF, eatTok, currentTok, numTok, eofToken]
  · intro env
    refine visit_left_chain ⟨tt, tv, tp⟩ ?_ a b c env
    rcases hop with h | h | h | h <;> simp only [Token.type] at h <;> subst h <;> rfl

/-- Witness for C3 at the concrete chain 5 - 3 - 2. -/
theorem c3_left_assoc_chains_witness :
    parseTokens [numTok (.int 5), ⟨.MINUS, .str "-", 0⟩, numTok (.int 3),
        ⟨.MINUS, .str "-", 0⟩, numTok (.int 2), eofToken] =
      .ok (.binaryOp (.binaryOp (.num (.int 5)) ⟨.MINUS, .str "-", 0⟩ (.num (.int 3)))
        ⟨.MINUS, .str "-", 0⟩ (.num (.int 2))) ∧
    visit (.binaryOp (.binaryOp (.num (.int 5)) ⟨.MINUS, .str "-", 0⟩ (.num (.int 3)))
        ⟨.MINUS, .str "-", 0⟩ (.num (.int 2))) [] =
      (foldLeftOps .MINUS (.int 5) [.int 3, .int 2], []) :=
  ⟨(c3_left_assoc_chains.1 (.int 5) (.int 3) (.int 2) ⟨.MINUS, .str "-", 0⟩
      (Or.inr (Or.inl rfl))).1,
   (c3_left_assoc_chains.1 (.int 5) (.int 3) (.int 2) ⟨.MINUS, .str "-", 0⟩
      (Or.inr (Or.inl rfl))).2 []⟩

/-- C4: the actual behavior of the code at the failing input "-2 ** 2".
The unary-minus branch of factor recurses into factor itself, so the
minus is attached to the literal 2 alone and that unary node becomes the
LEFT operand of the power: the input parses as (-2) ** 2 and evaluates
to 4, not to the -(2 ** 2) = -4 that the claim (and the comment placed
next to this very example in the source, line 408) prescribes. -/
theorem c4_unary_minus_power_actual_behavior :
    parseText "-2 ** 2" =
      .ok (.binaryOp (.unaryOp ⟨.MINUS, .str "-", 0⟩ (.num (.int 2))) powTok
        (.num (.int 2))) ∧
    runText "-2 ** 2" [] = (.ok (.int 4), []) ∧
    runText "-2 ** 2" [] ≠ (.ok (.int (-4)), []) := by
  refine ⟨by decide, by decide, by decide⟩

/-- C5: evaluating an assignment node first evaluates the value
expression, then stores the result under the target name (shadowing any
prior binding, so lookup sees the overwrite), then returns that value;
an error in the value expression propagates without storing.  Hence
chained assignment nests to the right: "c = b = a = 15" parses as
c = (b = (a = 15)), returns 15, and afterwards a, b and c all look up
to 15. -/
theorem c5_assignment_eval_order_and_chaining :
    (∀ (name : String) (e : ASTNode) (env env1 : Env) (v : Value),
      visit e env = (.ok v, env1) →
      visit (.assign (.var name) e) env = (.ok v, insertVar env1 name v)) ∧
    (∀ (name : String) (e : ASTNode) (env env1 : Env) (err : Error),
      visit e env = (.error err, env1) →
      visit (.assign (.var name) e) env = (.error err, env1)) ∧
    parseText "c = b = a = 15" =
      .ok (.assign (.var "c") (.assign (.var "b") (.assign (.var "a")
        (.num (.int 15))))) ∧
    runText "c = b = a = 15" [] =
      (.ok (.int 15), [("c", .int 15), ("b", .int 15), ("a", .int 15)]) ∧
    lookupVar [("c", .int 15), ("b", .int 15), ("a", .int 15)] "a" = some (.int 15) ∧
    lookupVar [("c", .int 15), ("b", .int 15), ("a", .int 15)] "b" = some (.int 15) ∧
    lookupVar [("c", .int 15), ("b", .int 15), ("a", .int 15)] "c" = some (.int 15) := by
  refine ⟨?_, ?_, by decide, by decide, by decide, by decide, by decide⟩
  · intro name e env env1 v h
    simp [visit, h]
  · intro name e env env1 err h
    simp [visit, h]

/-- Witness for C5 at a concrete completed assignment. -/
theorem c5_assignment_eval_order_and_chaining_witness :
    visit (.assign (.var "a") (.num (.int 15))) [] =
      (.ok (.int 15), insertVar [] "a" (.int 15)) :=
  c5_assignment_eval_order_and_chaining.1 "a" (.num (.int 15)) [] [] (.int 15) rfl

/-- C6: every assignment node in any tree the parser returns has a
variable-reference node as its left child; the invariant comes from the
isinstance check in the assignment rule, not from the node type itself,
which also admits trees violating it. -/
theorem c6_parser_assign_target_invariant :
    (∀ (ts : List Token) (t : ASTNode), parseTokens ts = .ok t → assignInvB t = true) ∧
    (∃ bad : ASTNode, assignInvB bad = false) := by
  constructor
  · intro ts t h
    cases ha : assignmentF (parserFuel ts) ts with
    | error e => rw [parseTokens, ha] at h; exact Except.noConfusion h
    | ok p =>
      obtain ⟨node, rest⟩ := p
      rw [parseTokens, ha] at h
      obtain rfl := Except.ok.inj h
      exact (parserInv (parserFuel ts)).2.2.2.2.2.2 ts (node, rest) ha
  · exact ⟨.assign (.num (.int 0)) (.num (.int 0)), rfl⟩

/-- Witness for C6 on the parsed tree of "a = 5". -/
theorem c6_parser_assign_target_invariant_witness :
    parseTokens [⟨.IDENTIFIER, .str "a", 0⟩, ⟨.ASSIGN, .str "=", 0⟩,
        numTok (.int 5), eofToken] = .ok (.assign (.var "a") (.num (.int 5))) ∧
    assignInvB (.assign (.var "a") (.num (.int 5))) = true :=
  ⟨by decide,
   c6_parser_assign_target_invariant.1
     [⟨.IDENTIFIER, .str "a", 0⟩, ⟨.ASSIGN, .str "=", 0⟩, numTok (.int 5), eofToken]
     (.assign (.var "a") (.num (.int 5))) (by decide)⟩

/-- C7: evaluating a variable-reference node returns the current binding
of the name when bound and fails with an UndefinedVariable error carrying
the name when absent; in particular "x" against the empty environment
fails with UndefinedVariable x. -/
theorem c7_variable_lookup_semantics :
    (∀ (name : String) (env : Env) (v : Value),
      lookupVar env name = some v → visit (.var name) env = (.ok v, env)) ∧
    (∀ (name : String) (env : Env),
      lookupVar env name = Option.none →
      visit (.var name) env = (.error (.undefinedVariable name), env)) ∧
    parseText "x" = .ok (.var "x") ∧
    runText "x" [] = (.error (.undefinedVariable "x"), []) := by
  refine ⟨?_, ?_, by decide, by decide⟩
  · intro name env v h
    simp [visit, h]
  · intro name env h
    simp [visit, h]

/-- Witness for C7 on a bound and an unbound lookup. -/
theorem c7_variable_lookup_semantics_witness :
    visit (.var "x") [("x", .int 7)] = (.ok (.int 7), [("x", .int 7)]) ∧
    visit (.var "x") [] = (.error (.undefinedVariable "x"), []) :=
  ⟨c7_variable_lookup_semantics.1 "x" [("x", .int 7)] (.int 7) (by decide),
   (c7_variable_lookup_semantics.2.1) "x" [] (by decide)⟩

/-- C8: for every tree and every starting environment, the environment
after evaluation - in particular after a failed evaluation, since visit
returns the environment reached at the raise point - is exactly the
starting environment extended by the chronological writes of the
assignment nodes whose evaluation fully completed: no partially
evaluated assignment writes anything, and no completed write is rolled
back. -/
theorem c8_env_is_completed_assignment_writes : ∀ (t : ASTNode) (env : Env),
    (visit t env).2 = applyWrites (completedWrites t env) env := by
  intro t
  induction t with
  | num v => intro env; simp [visit, completedWrites, applyWrites_nil]
  | var name =>
    intro env
    cases h : lookupVar env name <;> simp [visit, completedWrites, applyWrites_nil, h]
  | unaryOp op e ih =>
    intro env
    cases htt : op.type <;> simp only [visit, completedWrites, htt] <;>
      try simp [applyWrites_nil]
    · exact ih env
    · have h2 := ih env
      cases hv : visit e env with
      | mk res env1 =>
        rw [hv] at h2
        simp at h2
        cases res <;> simp [hv, h2]
  | binaryOp l op r ihl ihr =>
    intro env
    cases hbo : isBinNumOp op.type <;> simp only [visit, completedWrites, hbo] <;>
      try simp [applyWrites_nil]
    cases hl : visit l env with
    | mk res1 env1 =>
      have h1 := ihl env
      rw [hl] at h1
      simp at h1
      cases res1 with
      | error e => simpa [hl] using h1
      | ok v1 =>
        cases hr : visit r env1 with
        | mk res2 env2 =>
          have h2 := ihr env1
          rw [hr] at h2
          simp at h2
          cases res2 <;>
          · simp only [hl, hr]
            rw [applyWrites_append, ← h1]
            exact h2
  | assign l r ihl ihr =>
    intro env
    cases l <;> simp only [visit, completedWrites] <;> try simp [applyWrites_nil]
    case var name =>
      cases hv : visit r env with
      | mk res env1 =>
        have h2 := ihr env
        rw [hv] at h2
        simp at h2
        cases res with
        | error e => simpa [hv] using h2
        | ok v =>
          simp only [hv]
          rw [applyWrites_append, applyWrites_single, ← h2]
          simp [insertVar]

/-- C9: a tree with no assignment node evaluates purely: the environment
is unchanged, so evaluating the same tree again right after yields the
identical result. -/
theorem c9_assignment_free_idempotent (t : ASTNode) (env : Env)
    (h : noAssignB t = true) :
    (visit t env).2 = env ∧ visit t ((visit t env).2) = visit t env := by
  have h1 := visit_noAssign_env t env h
  exact ⟨h1, by rw [h1]⟩

/-- Witness for C9 on the assignment-free tree 1 + 2. -/
theorem c9_assignment_free_idempotent_witness :
    noAssignB (.binaryOp (.num (.int 1)) ⟨.PLUS, .str "+", 0⟩ (.num (.int 2))) = true ∧
    ((visit (.binaryOp (.num (.int 1)) ⟨.PLUS, .str "+", 0⟩ (.num (.int 2))) []).2 = [] ∧
      visit (.binaryOp (.num (.int 1)) ⟨.PLUS, .str "+", 0⟩ (.num (.int 2)))
          ((visit (.binaryOp (.num (.int 1)) ⟨.PLUS, .str "+", 0⟩ (.num (.int 2))) []).2) =
        visit (.binaryOp (.num (.int 1)) ⟨.PLUS, .str "+", 0⟩ (.num (.int 2))) []) :=
  ⟨by decide,
   c9_assignment_free_idempotent
     (.binaryOp (.num (.int 1)) ⟨.PLUS, .str "+", 0⟩ (.num (.int 2))) [] (by decide)⟩

/-- C10: on the empty input and on any input made of whitespace only,
tokenization succeeds with just the EOF token, and parsing fails with a
ParseError carrying that EOF token, raised when the rule chain reaches
factor with end-of-input where a number, identifier, sign or parenthesis
was expected. -/
theorem c10_whitespace_only_input : ∀ s : String,
    (∀ c ∈ s.data, c.isWhitespace = true) →
    tokenize s = .ok [eofToken] ∧ parseText s = .error (.parseError eofToken) := by
  intro s h
  have ht : tokenize s = .ok [eofToken] := by
    simp only [tokenize, tokenizeLoop, getNextToken]
    rw [skipWs_of_all_ws s.data 0 h]
    simp [eofToken]
  refine ⟨ht, ?_⟩
  simp only [parseText, ht]
  decide

/-- Witness for C10 on the empty input and a one-space input. -/
theorem c10_whitespace_only_input_witness :
    (tokenize "" = .ok [eofToken] ∧ parseText "" = .error (.parseError eofToken)) ∧
    (tokenize " " = .ok [eofToken] ∧ parseText " " = .error (.parseError eofToken)) :=
  ⟨c10_whitespace_only_input "" (by decide),
   c10_whitespace_only_input " " (by decide)⟩


end Asociatividad
